import Mathlib

/-
Shallow embedding of the genetic-algorithm recipe engine (src/genetic-algo.py).

Modelling conventions:
* Python floats are modelled as exact rationals (ℚ).
* Every stochastic draw of the source (`random.choice`, `random.uniform`,
  `np.random.choice`, `np.random.randint`) becomes an explicit parameter of the
  embedded function: an index into the sequence the source samples from, or the
  drawn value itself.  Python guarantees a drawn index is in range, so theorems
  about the in-range behaviour carry the corresponding bound as a hypothesis.
* A Python `set` of names is modelled as a `List String` enumerating its
  elements; `set.difference` becomes `List.filter`.
* An operation that can raise an exception returns `Option`/`Except`; `none`
  (or `Except.error e`) is the raised exception, `some`/`Except.ok` a normal
  return.
* A raw recipe line `"<amount> oz <name>"` is modelled as the pair
  `(amount, name) : ℚ × String` it parses to (`line.split(" oz ")`,
  `float(information[0])`, `information[1]`); formatting an `Ingredient` back
  into such a line (`Ingredient.__str__`) rounds the amount to 2 decimal
  places, and re-parsing the printed value recovers exactly that rounded
  number.
-/

namespace GeneticAlgo

/-- Ingredient of src/genetic-algo.py: a name and an amount in oz. -/
structure Ingredient where
  name : String
  amount : ℚ
deriving DecidableEq

/-- A recipe is identified with its `self.ingredients` list; the `name`
attribute is only used for file output and plays no role in the claims. -/
abbrev Recipe := List Ingredient

/-- Recipe.get_fitness: `len(self.ingredients)`. -/
def get_fitness (r : Recipe) : ℕ := r.length

/-- Running total `current_total` accumulated over `self.ingredients`. -/
def total_amount (ings : Recipe) : ℚ := (ings.map (fun ing => ing.amount)).sum

/-- One step of the dictionary construction in `make_ingredient_objects`:
`recipe_dic[name] = amt` when the key is new (Python dicts keep insertion
order, so a new key goes to the end), otherwise
`recipe_dic[name] = curr_amt + amt` on the existing entry. -/
def insert_line : List (String × ℚ) → String → ℚ → List (String × ℚ)
  | [], name, amt => [(name, amt)]
  | p :: rest, name, amt =>
      if p.1 = name then (p.1, p.2 + amt) :: rest
      else p :: insert_line rest name amt

/-- Recipe.make_ingredient_objects: build `recipe_dic` line by line (summing
amounts of duplicate names), then append one `Ingredient` per entry in
dictionary (= first-occurrence) order.  A line is modelled as the
`(amount, name)` pair it parses to. -/
def make_ingredient_objects (recipe_strs : List (ℚ × String)) : Recipe :=
  let recipe_dic := recipe_strs.foldl (fun dic line => insert_line dic line.2 line.1) []
  recipe_dic.map (fun p => ⟨p.1, p.2⟩)

/-- Recipe.change_amount: `np.random.choice(self.ingredients)` raises
`ValueError` on an empty list (modelled `none`); otherwise the ingredient at
the drawn index `i` gets amount `(random.uniform(-.9,.9) + 1) * amount`,
where `u` is the drawn value of `random.uniform(-.9,.9)`. -/
def change_amount (ings : Recipe) (i : ℕ) (u : ℚ) : Option Recipe :=
  if ings.isEmpty then none
  else
    let ingredient := ings.getD i ⟨"", 0⟩
    let new_amt := (u + 1) * ingredient.amount
    some (ings.set i { ingredient with amount := new_amt })

/-- Recipe.add_ingredient: compute the inspiring-set names not already in the
recipe; return unchanged if there are none.  Otherwise the source draws
`new_name = random.choice(tuple(all_ingredients))` — from the FULL inspiring
set, overwriting the earlier draw from `new_possible_ingredients` — and
appends `Ingredient(new_name, new_amt)` where
`new_amt = np.random.choice(range(0,100))`.  Here `k` is the index of the
name draw into `all_ingredients` and `new_amt` the drawn integer amount. -/
def add_ingredient (ings : Recipe) (all_ingredients : List String) (k : ℕ)
    (new_amt : ℕ) : Recipe :=
  let curr_ingredient_strs := ings.map (fun ing => ing.name)
  let new_possible_ingredients :=
    all_ingredients.filter (fun n => ¬ n ∈ curr_ingredient_strs)
  if new_possible_ingredients.isEmpty then ings
  else ings ++ [⟨all_ingredients.getD k "", (new_amt : ℚ)⟩]

/-- Recipe.delete_ingredient: `random.choice(self.ingredients)` raises
`IndexError` on an empty list (modelled `none`); otherwise
`self.ingredients.remove(selected_ing)` deletes the drawn element (Python
`remove` compares by default object identity here, so it removes exactly the
element at the drawn index `i`). -/
def delete_ingredient (ings : Recipe) (i : ℕ) : Option Recipe :=
  if ings.isEmpty then none
  else some (ings.eraseIdx i)

/-- Recipe.swap_ingredient: `random.choice(self.ingredients)` raises
`IndexError` on an empty list (modelled `none`); `choices` is the inspiring
set minus the selected ingredient's name, and `random.choice(tuple(choices))`
raises `IndexError` when it is empty (modelled `none`); otherwise the selected
ingredient's name is set to the drawn choice.  `i` is the drawn ingredient
index, `k` the drawn index into `choices`. -/
def swap_ingredient (ings : Recipe) (all_ingredients : List String) (i k : ℕ) :
    Option Recipe :=
  if ings.isEmpty then none
  else
    let ingredient := ings.getD i ⟨"", 0⟩
    let choices := all_ingredients.filter (fun n => n ≠ ingredient.name)
    if choices.isEmpty then none
    else some (ings.set i { ingredient with name := choices.getD k "" })

/-- The scaling loop of Recipe.normalize.  The source iterates over
`self.ingredients` with a `for` loop while calling `self.ingredients.remove`
inside it: removing the current element shifts the remainder left while the
iterator still advances, so the element immediately after a removed one is
skipped — it is neither rescaled nor tested against the 0.01 threshold. -/
def normalizeLoop (sizing_factor : ℚ) : List Ingredient → List Ingredient
  | [] => []
  | [ing] =>
      let new_amt := ing.amount * sizing_factor
      if new_amt < 1/100 then [] else [{ ing with amount := new_amt }]
  | ing :: next :: rest =>
      let new_amt := ing.amount * sizing_factor
      if new_amt < 1/100 then next :: normalizeLoop sizing_factor rest
      else { ing with amount := new_amt } :: normalizeLoop sizing_factor (next :: rest)

/-- Recipe.normalize: return unchanged when the total is exactly 100;
otherwise compute `sizing_factor = 100 / current_total` — which raises
`ZeroDivisionError` when the total is 0 (modelled `none`; the source has no
zero-total guard) — and run the scaling/pruning loop. -/
def normalize (ings : Recipe) : Option Recipe :=
  let current_total := total_amount ings
  if current_total = 100 then some ings
  else if current_total = 0 then none
  else some (normalizeLoop (100 / current_total) ings)

/-- Exceptions the selection step of RecipeManager.genetic_algo can raise,
plus the designated error the specification describes (which the source never
raises). -/
inductive PyError where
  | zeroDivisionError
  | valueError
  | degenerateSelection
deriving DecidableEq

/-- The pair-selection step inside RecipeManager.genetic_algo (lines 248-251):
`p = [fit / sum_fit for fit in fitnesses]` performs one division per element
of `fitnesses`, so it raises `ZeroDivisionError` exactly when the population
is non-empty and `sum_fit == 0`; on the empty population the comprehension
divides nothing and `np.random.choice([], p=[], size=2, replace=False)`
raises numpy's `ValueError` instead.  Past the comprehension,
`np.random.choice(self.recipes, p=p, size=2, replace=False)` raises
`ValueError` when it cannot draw two distinct recipes (population smaller
than 2, or fewer than 2 recipes of nonzero weight).  `i`, `j` are the two
drawn indices. -/
def select_pair (recipes : List Recipe) (i j : ℕ) :
    Except PyError (Recipe × Recipe) :=
  let fitnesses := recipes.map get_fitness
  let sum_fit := fitnesses.sum
  if ¬ fitnesses = [] ∧ sum_fit = 0 then Except.error PyError.zeroDivisionError
  else if recipes.length < 2 then Except.error PyError.valueError
  else if (fitnesses.filter (fun f => f ≠ 0)).length < 2 then
    Except.error PyError.valueError
  else Except.ok (recipes.getD i [], recipes.getD j [])

/-- Stable ascending sort by fitness: `sorted(recipes, key=lambda x :
x.get_fitness())`.  Python's sort is stable, and insertion sort with a total
preorder comparison is the stable sort, so the two agree. -/
def sortByFitness (recipes : List Recipe) : List Recipe :=
  recipes.insertionSort (fun a b => get_fitness a ≤ get_fitness b)

/-- RecipeManager.fittest_half: `sorted_recipes[int(len(recipes)/2):]` —
drop the lower `⌊n/2⌋` of the ascending-sorted population, keeping the
remaining (upper) `n - ⌊n/2⌋` members. -/
def fittest_half (recipes : List Recipe) : List Recipe :=
  (sortByFitness recipes).drop (recipes.length / 2)

/-- The survivor-selection step of RecipeManager.genetic_algo (line 258):
`self.recipes = self.fittest_half(self.recipes) + self.fittest_half(new_recipes)`. -/
def next_generation (recipes new_recipes : List Recipe) : List Recipe :=
  fittest_half recipes ++ fittest_half new_recipes

/-- Python `round(q, 2)` as used by Ingredient.__str__.  (Python rounds
half-to-even on binary floats; exact two-decimal ties never arise from the
binary floats the source manipulates, so the integer rounding mode is not
observable and Mathlib's `round` is used.) -/
def round2 (q : ℚ) : ℚ := (round (q * 100) : ℤ) / 100

/-- Ingredient.__str__, `str(round(self.amount, 2)) + " oz " + self.name`,
modelled as the `(amount, name)` pair the printed line parses back to. -/
def ingredient_str (ing : Ingredient) : ℚ × String := (round2 ing.amount, ing.name)

/-- Recipe.get_ingredient_strings: `[str(ingredient) for ingredient in
self.ingredients]`. -/
def get_ingredient_strings (r : Recipe) : List (ℚ × String) := r.map ingredient_str

/-- The concatenated raw-line sequence built by RecipeManager.crossover:
`recipe1_strs[:pivot] + recipe2_strs[pivot:]`. -/
def crossover_lines (recipe1 recipe2 : Recipe) (pivot : ℕ) : List (ℚ × String) :=
  (get_ingredient_strings recipe1).take pivot ++
    (get_ingredient_strings recipe2).drop pivot

/-- RecipeManager.crossover up to (excluding) its final stochastic
`mutate` call: the new Recipe constructed from the concatenated textual
ingredient lines.  `pivot` is the drawn value of
`np.random.randint(0, shortest_recipe_len)`. -/
def crossover (recipe1 recipe2 : Recipe) (pivot : ℕ) : Recipe :=
  make_ingredient_objects (crossover_lines recipe1 recipe2 pivot)

/-- Sum of the amounts of all lines carrying a given name. -/
def amountFor (lines : List (ℚ × String)) (n : String) : ℚ :=
  ((lines.filter (fun l => l.2 = n)).map (fun l => l.1)).sum

/-- Keys of the modelled dictionary, in insertion order. -/
def dict_keys (d : List (String × ℚ)) : List String := d.map (fun p => p.1)

/-- Total amount the modelled dictionary stores under a given key. -/
def dict_amount (d : List (String × ℚ)) (n : String) : ℚ :=
  ((d.filter (fun p => p.1 = n)).map (fun p => p.2)).sum

/-- A dummy ingredient used to build concrete example populations. -/
def demoIng : Ingredient := ⟨"x", 1⟩

/-- A concrete recipe with exactly `n` ingredients, hence fitness `n`. -/
def recN (n : ℕ) : Recipe := List.replicate n demoIng

/- ------------------------------------------------------------------ -/
/- Helper lemmas                                                       -/
/- ------------------------------------------------------------------ -/

theorem dict_amount_nil (n : String) : dict_amount [] n = 0 := rfl

theorem dict_amount_cons (p : String × ℚ) (d : List (String × ℚ)) (n : String) :
    dict_amount (p :: d) n = (if p.1 = n then p.2 else 0) + dict_amount d n := by
  by_cases h : p.1 = n <;> simp [dict_amount, List.filter_cons, h]

theorem amountFor_nil (n : String) : amountFor [] n = 0 := rfl

theorem amountFor_cons (l : ℚ × String) (lines : List (ℚ × String)) (n : String) :
    amountFor (l :: lines) n = (if l.2 = n then l.1 else 0) + amountFor lines n := by
  by_cases h : l.2 = n <;> simp [amountFor, List.filter_cons, h]

theorem dict_amount_insert_line (d : List (String × ℚ)) (name : String) (amt : ℚ)
    (n : String) :
    dict_amount (insert_line d name amt) n
      = dict_amount d n + (if name = n then amt else 0) := by
  induction d with
  | nil =>
      simp only [insert_line, dict_amount_cons, dict_amount_nil]
      by_cases h : name = n <;> simp [h]
  | cons p rest ih =>
      by_cases hp : p.1 = name
      · rw [insert_line, if_pos hp]
        by_cases hn : name = n
        · subst hn
          rw [dict_amount_cons, dict_amount_cons, if_pos hp, if_pos hp, if_pos rfl]
          ring
        · have hpn : ¬ p.1 = n := fun e => hn (hp.symm.trans e)
          rw [dict_amount_cons, dict_amount_cons, if_neg hpn, if_neg hpn, if_neg hn]
          ring
      · rw [insert_line, if_neg hp]
        rw [dict_amount_cons, dict_amount_cons, ih]
        ring

theorem dict_amount_foldl (lines : List (ℚ × String)) :
    ∀ (d : List (String × ℚ)) (n : String),
      dict_amount (lines.foldl (fun dic line => insert_line dic line.2 line.1) d) n
        = dict_amount d n + amountFor lines n := by
  induction lines with
  | nil => intro d n; simp [amountFor_nil]
  | cons l rest ih =>
      intro d n
      simp only [List.foldl_cons]
      rw [ih, dict_amount_insert_line, amountFor_cons]
      ring

theorem dict_keys_cons (p : String × ℚ) (d : List (String × ℚ)) :
    dict_keys (p :: d) = p.1 :: dict_keys d := rfl

theorem dict_keys_insert_line (d : List (String × ℚ)) (name : String) (amt : ℚ) :
    dict_keys (insert_line d name amt)
      = if name ∈ dict_keys d then dict_keys d else dict_keys d ++ [name] := by
  induction d with
  | nil => simp [insert_line, dict_keys]
  | cons p rest ih =>
      by_cases hp : p.1 = name
      · rw [insert_line, if_pos hp]
        have hmem : name ∈ dict_keys (p :: rest) := by
          rw [dict_keys_cons, ← hp]
          exact List.mem_cons_self p.1 (dict_keys rest)
        rw [if_pos hmem]
        rfl
      · rw [insert_line, if_neg hp]
        by_cases hmem : name ∈ dict_keys rest
        · have hmem2 : name ∈ dict_keys (p :: rest) := by
            rw [dict_keys_cons]
            exact List.mem_cons_of_mem p.1 hmem
          rw [dict_keys_cons, ih, if_pos hmem, if_pos hmem2, dict_keys_cons]
        · have hne : name ≠ p.1 := fun e => hp e.symm
          have hmem2 : ¬ name ∈ dict_keys (p :: rest) := by
            rw [dict_keys_cons]
            intro hmm
            rcases List.mem_cons.mp hmm with h1 | h2
            · exact hne h1
            · exact hmem h2
          rw [dict_keys_cons, ih, if_neg hmem, if_neg hmem2, dict_keys_cons]
          rfl

theorem nodup_dict_keys_insert_line (d : List (String × ℚ)) (name : String)
    (amt : ℚ) (h : (dict_keys d).Nodup) :
    (dict_keys (insert_line d name amt)).Nodup := by
  rw [dict_keys_insert_line]
  by_cases hmem : name ∈ dict_keys d
  · simpa [hmem] using h
  · simp only [hmem, if_false]
    rw [List.nodup_append]
    refine ⟨h, List.nodup_singleton name, ?_⟩
    intro a ha hb
    simp only [List.mem_singleton] at hb
    exact hmem (hb ▸ ha)

theorem mem_dict_keys_insert_line_self (d : List (String × ℚ)) (name : String)
    (amt : ℚ) : name ∈ dict_keys (insert_line d name amt) := by
  rw [dict_keys_insert_line]
  by_cases hmem : name ∈ dict_keys d <;> simp [hmem]

theorem mem_dict_keys_insert_line_of_mem (d : List (String × ℚ)) (name : String)
    (amt : ℚ) (n : String) (h : n ∈ dict_keys d) :
    n ∈ dict_keys (insert_line d name amt) := by
  rw [dict_keys_insert_line]
  by_cases hmem : name ∈ dict_keys d <;> simp [hmem, h]

theorem mem_dict_keys_foldl_of_mem (lines : List (ℚ × String)) :
    ∀ (d : List (String × ℚ)) (n : String), n ∈ dict_keys d →
      n ∈ dict_keys (lines.foldl (fun dic line => insert_line dic line.2 line.1) d) := by
  induction lines with
  | nil => intro d n h; simpa using h
  | cons l rest ih =>
      intro d n h
      simp only [List.foldl_cons]
      exact ih _ n (mem_dict_keys_insert_line_of_mem d l.2 l.1 n h)

theorem mem_dict_keys_foldl_of_line (lines : List (ℚ × String)) :
    ∀ (d : List (String × ℚ)) (line : ℚ × String), line ∈ lines →
      line.2 ∈ dict_keys (lines.foldl (fun dic line => insert_line dic line.2 line.1) d) := by
  induction lines with
  | nil => intro d line h; simp at h
  | cons l rest ih =>
      intro d line h
      simp only [List.foldl_cons]
      rcases List.mem_cons.mp h with h1 | h2
      · subst h1
        exact mem_dict_keys_foldl_of_mem rest _ line.2
          (mem_dict_keys_insert_line_self d line.2 line.1)
      · exact ih _ line h2

theorem nodup_dict_keys_foldl (lines : List (ℚ × String)) :
    ∀ d : List (String × ℚ), (dict_keys d).Nodup →
      (dict_keys (lines.foldl (fun dic line => insert_line dic line.2 line.1) d)).Nodup := by
  induction lines with
  | nil => intro d h; simpa using h
  | cons l rest ih =>
      intro d h
      simp only [List.foldl_cons]
      exact ih _ (nodup_dict_keys_insert_line d l.2 l.1 h)

theorem dict_amount_of_not_mem (d : List (String × ℚ)) (n : String)
    (h : ¬ n ∈ dict_keys d) : dict_amount d n = 0 := by
  induction d with
  | nil => rfl
  | cons p rest ih =>
      have hp : ¬ p.1 = n := by
        intro e; exact h (by simp [dict_keys, e])
      have hrest : ¬ n ∈ dict_keys rest := by
        intro e; exact h (by simp [dict_keys] at e ⊢; exact Or.inr e)
      rw [dict_amount_cons, if_neg hp, ih hrest, zero_add]

theorem dict_amount_of_mem (d : List (String × ℚ)) (hnd : (dict_keys d).Nodup)
    (p : String × ℚ) (hp : p ∈ d) : p.2 = dict_amount d p.1 := by
  induction d with
  | nil => simp at hp
  | cons q rest ih =>
      simp only [dict_keys, List.map_cons, List.nodup_cons] at hnd
      rcases List.mem_cons.mp hp with h1 | h2
      · subst h1
        rw [dict_amount_cons, if_pos rfl,
          dict_amount_of_not_mem rest p.1 (by simpa [dict_keys] using hnd.1), add_zero]
      · have hne : ¬ q.1 = p.1 := by
          intro e
          exact hnd.1 (by simpa [dict_keys, e] using List.mem_map_of_mem (fun r => r.1) h2)
        rw [dict_amount_cons, if_neg hne, ih hnd.2 h2, zero_add]

theorem make_ingredient_objects_names (lines : List (ℚ × String)) :
    (make_ingredient_objects lines).map (fun ing => ing.name)
      = dict_keys (lines.foldl (fun dic line => insert_line dic line.2 line.1) []) := by
  simp only [make_ingredient_objects, dict_keys, List.map_map]
  rfl

theorem make_ingredient_objects_names_nodup (lines : List (ℚ × String)) :
    ((make_ingredient_objects lines).map (fun ing => ing.name)).Nodup := by
  rw [make_ingredient_objects_names]
  exact nodup_dict_keys_foldl lines [] (by simp [dict_keys])

theorem make_ingredient_objects_amount (lines : List (ℚ × String)) :
    ∀ ing ∈ make_ingredient_objects lines, ing.amount = amountFor lines ing.name := by
  intro ing hing
  simp only [make_ingredient_objects, List.mem_map] at hing
  obtain ⟨p, hp, rfl⟩ := hing
  have hnd := nodup_dict_keys_foldl lines [] (by simp [dict_keys])
  have := dict_amount_of_mem _ hnd p hp
  rw [show (⟨p.1, p.2⟩ : Ingredient).amount = p.2 from rfl,
    show (⟨p.1, p.2⟩ : Ingredient).name = p.1 from rfl, this,
    dict_amount_foldl lines [] p.1, dict_amount_nil, zero_add]

theorem make_ingredient_objects_name_mem (lines : List (ℚ × String)) :
    ∀ line ∈ lines, ∃ ing ∈ make_ingredient_objects lines, ing.name = line.2 := by
  intro line hline
  have hmem := mem_dict_keys_foldl_of_line lines [] line hline
  simp only [dict_keys, List.mem_map] at hmem
  obtain ⟨p, hp, hname⟩ := hmem
  exact ⟨⟨p.1, p.2⟩, List.mem_map_of_mem (fun q => (⟨q.1, q.2⟩ : Ingredient)) hp, hname⟩

theorem normalizeLoop_no_prune (f : ℚ) (l : List Ingredient)
    (h : ∀ ing ∈ l, ¬ ing.amount * f < 1/100) :
    normalizeLoop f l = l.map (fun ing => { ing with amount := ing.amount * f }) := by
  induction l with
  | nil => rfl
  | cons x tl ih =>
      cases tl with
      | nil =>
          simp only [normalizeLoop, List.map_cons, List.map_nil]
          rw [if_neg (h x (by simp))]
      | cons y rest =>
          rw [normalizeLoop]
          rw [if_neg (h x (by simp))]
          simp only [List.map_cons] at ih ⊢
          rw [ih (fun ing hm => h ing (List.mem_cons_of_mem x hm))]

theorem total_amount_map_scale (f : ℚ) (l : List Ingredient) :
    total_amount (l.map (fun ing => { ing with amount := ing.amount * f }))
      = total_amount l * f := by
  induction l with
  | nil => simp [total_amount]
  | cons x tl ih =>
      simp only [total_amount, List.map_cons, List.sum_cons] at ih ⊢
      rw [ih]
      ring

theorem normalize_eq (ings : Recipe) :
    normalize ings
      = if total_amount ings = 100 then some ings
        else if total_amount ings = 0 then none
        else some (normalizeLoop (100 / total_amount ings) ings) := rfl

/- ------------------------------------------------------------------ -/
/- Claim theorems                                                      -/
/- ------------------------------------------------------------------ -/

/-- C1 (code_bug evaluation): the claim says `add_ingredient` never introduces
a name already present in the recipe.  The source draws the appended name from
the full inspiring set (`random.choice(tuple(all_ingredients))`), discarding
the deduplicated candidate it just computed: starting from the recipe
`[1.0 oz Gin]` with inspiring set `{Gin, Vodka}`, the draw `Gin` with amount 5
appends a second `Gin`, so the recipe ends with two Ingredients of the same
name. -/
theorem add_ingredient_introduces_duplicate :
    add_ingredient [⟨"Gin", 1⟩] ["Gin", "Vodka"] 0 5 = [⟨"Gin", 1⟩, ⟨"Gin", 5⟩] ∧
    ¬ (([⟨"Gin", (1 : ℚ)⟩, ⟨"Gin", (5 : ℚ)⟩] : Recipe).map
        (fun ing => ing.name)).Nodup := by
  constructor
  · norm_num [add_ingredient]
    decide
  · decide

/-- C2 (counterexample): the claim says a zero-total recipe makes
`normalize()` a no-op that returns normally; on the concrete zero-total recipe
`[5 oz a, -5 oz b]` the source instead raises `ZeroDivisionError` (modelled
`none`), so it does not return the list unchanged. -/
theorem normalize_zero_total_not_noop :
    normalize [⟨"a", 5⟩, ⟨"b", -5⟩] = none := by
  norm_num [normalize, total_amount]

/-- C2 (amended): for every recipe whose ingredient amounts sum to zero
(including the empty recipe), `normalize()` raises an unguarded
`ZeroDivisionError` from `sizing_factor = 100 / current_total` rather than
returning normally; there is no zero-total guard in the source. -/
theorem normalize_zero_total_errors (ings : Recipe)
    (h : total_amount ings = 0) : normalize ings = none := by
  rw [normalize_eq, h]
  norm_num

/-- Witness for the amended C2 at the empty recipe. -/
theorem normalize_zero_total_errors_witness : normalize [] = none :=
  normalize_zero_total_errors [] (by norm_num [total_amount])

/-- C3 (counterexample): the claim says `change_amount`, `delete_ingredient`
and `swap_ingredient` are silent no-ops on an empty recipe; on the concrete
empty recipe each instead raises (numpy `ValueError` for `change_amount`,
`IndexError` for the other two, modelled `none`) — none of them returns the
empty recipe unchanged. -/
theorem empty_recipe_mutations_error_concrete :
    change_amount [] 0 0 = none ∧ delete_ingredient [] 0 = none ∧
      swap_ingredient [] ["Gin"] 0 0 = none :=
  ⟨rfl, rfl, rfl⟩

/-- C3 (amended): for every recipe with an empty ingredient list, each of
`change_amount()`, `delete_ingredient()` and `swap_ingredient(inspiring_set)`
raises an exception from sampling the empty ingredient sequence (numpy
`ValueError`, `IndexError`, `IndexError` respectively, all modelled `none`);
none of them is a silent no-op. -/
theorem empty_recipe_mutations_raise (i k : ℕ) (u : ℚ)
    (all_ingredients : List String) :
    change_amount [] i u = none ∧ delete_ingredient [] i = none ∧
      swap_ingredient [] all_ingredients i k = none :=
  ⟨rfl, rfl, rfl⟩

/-- C4 (counterexample): the claim says that with total fitness zero the pair
selection fails with a designated DegenerateSelection error; on the concrete
population of two empty recipes (total fitness 0) the source instead raises an
unguarded `ZeroDivisionError` from `fit / sum_fit`, which is not the
designated error. -/
theorem select_pair_zero_fitness_zero_division :
    select_pair [[], []] 0 1 = Except.error PyError.zeroDivisionError ∧
      PyError.zeroDivisionError ≠ PyError.degenerateSelection :=
  ⟨rfl, by decide⟩

/-- C4 (amended): for every population, when the population is non-empty and
the total fitness is zero the pair-selection step raises an unguarded
`ZeroDivisionError` (from computing `fit / sum_fit`); on the empty population
the comprehension performs no division and numpy's size-2 draw raises
`ValueError`; when the total fitness is nonzero and the population has fewer
than 2 members it likewise raises numpy's `ValueError` (cannot draw 2
distinct recipes); and no failure of the step is a designated
DegenerateSelection error. -/
theorem select_pair_unguarded_errors (recipes : List Recipe) (i j : ℕ) :
    (recipes ≠ [] → (recipes.map get_fitness).sum = 0 →
      select_pair recipes i j = Except.error PyError.zeroDivisionError) ∧
    (recipes = [] →
      select_pair recipes i j = Except.error PyError.valueError) ∧
    ((recipes.map get_fitness).sum ≠ 0 → recipes.length < 2 →
      select_pair recipes i j = Except.error PyError.valueError) ∧
    (∀ e, select_pair recipes i j = Except.error e →
      e ≠ PyError.degenerateSelection) := by
  refine ⟨fun hne h0 => ?_, fun hemp => ?_, fun h0 hlen => ?_, fun e he => ?_⟩
  · have hfne : ¬ recipes.map get_fitness = [] := by
      simpa [List.map_eq_nil_iff] using hne
    simp [select_pair, h0, hfne]
  · subst hemp
    rfl
  · simp [select_pair, h0, hlen]
  · rw [select_pair] at he
    split_ifs at he
    all_goals
      first
      | exact Except.noConfusion he
      | (injection he with h
         subst h
         decide)

/-- Witness for the amended C4: total fitness 0 on the non-empty population
of two empty recipes gives ZeroDivisionError; the empty population gives
ValueError; a single-member population with nonzero fitness gives
ValueError. -/
theorem select_pair_unguarded_errors_witness :
    select_pair [[], []] 0 1 = Except.error PyError.zeroDivisionError ∧
      select_pair [] 0 1 = Except.error PyError.valueError ∧
      select_pair [[⟨"a", 1⟩]] 0 1 = Except.error PyError.valueError :=
  ⟨(select_pair_unguarded_errors [[], []] 0 1).1 (by decide) (by decide),
    (select_pair_unguarded_errors [] 0 1).2.1 rfl,
    (select_pair_unguarded_errors [[⟨"a", 1⟩]] 0 1).2.2.1 (by decide) (by decide)⟩

/-- C5 (counterexample): the claim says a population of odd size n contributes
⌊n/2⌋ survivors; on the concrete population of 3 recipes with fitnesses
1, 2, 3 the source keeps `sorted[int(3/2):]`, which has 2 members, not
⌊3/2⌋ = 1. -/
theorem fittest_half_odd_size_counterexample :
    (fittest_half [recN 1, recN 2, recN 3]).length = 2 ∧ (2 : ℕ) ≠ 3 / 2 := by
  constructor
  · decide
  · decide

/-- C5 (amended): survivor selection sorts the old population and the
offspring population ascending by fitness and keeps `sorted[⌊n/2⌋:]` of each,
i.e. the upper n − ⌊n/2⌋ members — so a population of odd size n contributes
⌊n/2⌋ + 1 survivors (the dropped lower half truncates, not the kept half) —
and the next generation is the concatenation of the two kept halves; old
fitnesses [1,2,3,4] and offspring fitnesses [5,6] yield halves [3,4] and [6]
and a next generation of 3 members. -/
theorem survivor_selection_keeps_upper_half (old new : List Recipe) :
    next_generation old new = fittest_half old ++ fittest_half new ∧
    (fittest_half old).length = old.length - old.length / 2 ∧
    (∀ n, old.length = 2 * n + 1 → (fittest_half old).length = n + 1) ∧
    ((fittest_half [recN 1, recN 2, recN 3, recN 4]).map get_fitness = [3, 4] ∧
      (fittest_half [recN 5, recN 6]).map get_fitness = [6] ∧
      (next_generation [recN 1, recN 2, recN 3, recN 4]
        [recN 5, recN 6]).length = 3) := by
  have hlen : ∀ l : List Recipe, (fittest_half l).length = l.length - l.length / 2 := by
    intro l
    simp [fittest_half, sortByFitness, List.length_drop, List.length_insertionSort]
  refine ⟨rfl, hlen old, fun n hn => ?_, by decide, by decide, by decide⟩
  rw [hlen old, hn]
  omega

/-- Witness for the amended C5 at a population of odd size 5: it contributes
5/2 + 1 = 3 survivors. -/
theorem survivor_selection_keeps_upper_half_witness :
    (fittest_half [recN 1, recN 2, recN 3, recN 4, recN 5]).length = 2 + 1 :=
  (survivor_selection_keeps_upper_half
    [recN 1, recN 2, recN 3, recN 4, recN 5] []).2.2.1 2 (by decide)

/-- C6 (code_bug evaluation): the claim (and the function's own docstring)
says that for a positive-total recipe `normalize()` leaves the amounts summing
to 100 with every sub-0.01 ingredient removed.  On the concrete recipe
`[0.001 oz a, 50 oz b]` (total 50.001 > 0) the scaled amount of `a` falls
below 0.01 and is removed from the list being iterated, so the iterator skips
`b`: the result is `[50 oz b]`, whose total is 50, not 100. -/
theorem normalize_positive_total_sum_violation :
    normalize [⟨"a", 1/1000⟩, ⟨"b", 50⟩] = some [⟨"b", 50⟩] ∧
      total_amount [⟨"b", (50 : ℚ)⟩] = 50 ∧ (50 : ℚ) ≠ 100 := by
  refine ⟨?_, ?_, by norm_num⟩
  · norm_num [normalize, total_amount, normalizeLoop]
  · norm_num [total_amount]

/-- C7 (counterexample): the claim says `normalize()` is idempotent on every
recipe; on the concrete recipe `[0.005 oz a, 99 oz b]` one application prunes
`a` and (because the removal shifts the list mid-iteration) skips `b`, giving
`[99 oz b]`, while a second application rescales that to `[100 oz b]` — so
applying it twice differs from applying it once. -/
theorem normalize_not_idempotent :
    normalize [⟨"a", 1/200⟩, ⟨"b", 99⟩] = some [⟨"b", 99⟩] ∧
      (normalize [⟨"a", 1/200⟩, ⟨"b", 99⟩]).bind normalize = some [⟨"b", 100⟩] ∧
      some ([⟨"b", (100 : ℚ)⟩] : Recipe) ≠ some [⟨"b", (99 : ℚ)⟩] := by
  have h1 : normalize [⟨"a", 1/200⟩, ⟨"b", 99⟩] = some [⟨"b", 99⟩] := by
    norm_num [normalize, total_amount, normalizeLoop]
  refine ⟨h1, ?_, by simp⟩
  rw [h1]
  norm_num [Option.bind, normalize, total_amount, normalizeLoop]

/-- C7 (amended): `normalize()` is idempotent on every recipe it does not
prune: when the total is positive and no scaled amount falls below 0.01
(in particular whenever the total is already exactly 100), applying normalize
twice yields the same ingredient list as applying it once.  Idempotence fails
in general only where pruning occurs (see the counterexample). -/
theorem normalize_idempotent_without_pruning (ings : Recipe)
    (hpos : 0 < total_amount ings)
    (hkeep : ∀ ing ∈ ings, 1/100 ≤ ing.amount * (100 / total_amount ings)) :
    (normalize ings).bind normalize = normalize ings := by
  by_cases h100 : total_amount ings = 100
  · have h1 : normalize ings = some ings := by rw [normalize_eq, if_pos h100]
    rw [h1]
    exact h1
  · have h0 : total_amount ings ≠ 0 := ne_of_gt hpos
    have hfirst : normalize ings
        = some (ings.map (fun ing =>
            { ing with amount := ing.amount * (100 / total_amount ings) })) := by
      rw [normalize_eq, if_neg h100, if_neg h0,
        normalizeLoop_no_prune _ _ (fun ing hm => not_lt.mpr (hkeep ing hm))]
    have htot : total_amount (ings.map (fun ing =>
        { ing with amount := ing.amount * (100 / total_amount ings) })) = 100 := by
      rw [total_amount_map_scale]
      field_simp
    have hsecond : normalize (ings.map (fun ing =>
        { ing with amount := ing.amount * (100 / total_amount ings) }))
        = some (ings.map (fun ing =>
            { ing with amount := ing.amount * (100 / total_amount ings) })) := by
      rw [normalize_eq, if_pos htot]
    rw [hfirst]
    exact hsecond

/-- Witness for the amended C7 at the one-ingredient recipe `[50 oz b]`
(total 50 > 0, scaled amount 100 ≥ 0.01): normalize ∘ normalize agrees with
normalize. -/
theorem normalize_idempotent_without_pruning_witness :
    (normalize [⟨"b", 50⟩]).bind normalize = normalize [⟨"b", 50⟩] :=
  normalize_idempotent_without_pruning [⟨"b", 50⟩]
    (by norm_num [total_amount])
    (by
      intro ing hm
      simp only [List.mem_singleton] at hm
      subst hm
      norm_num [total_amount])

/-- C8: Recipe construction from raw lines aggregates duplicate names by
summing their amounts into a single Ingredient: for every input line list,
the constructed Ingredients carry pairwise distinct names, every line's name
appears, and each constructed Ingredient's amount is the sum of the amounts
of the lines carrying its name; in particular constructing from
["1 oz Gin", "2 oz Gin"] yields exactly one Ingredient named "Gin" with
amount 3. -/
theorem make_ingredient_objects_aggregates :
    (∀ lines : List (ℚ × String),
      ((make_ingredient_objects lines).map (fun ing => ing.name)).Nodup ∧
      (∀ ing ∈ make_ingredient_objects lines,
        ing.amount = amountFor lines ing.name) ∧
      (∀ line ∈ lines, ∃ ing ∈ make_ingredient_objects lines,
        ing.name = line.2)) ∧
    make_ingredient_objects [(1, "Gin"), (2, "Gin")] = [⟨"Gin", 3⟩] := by
  refine ⟨fun lines => ⟨make_ingredient_objects_names_nodup lines,
    make_ingredient_objects_amount lines,
    make_ingredient_objects_name_mem lines⟩, ?_⟩
  norm_num [make_ingredient_objects, insert_line]

/-- Witness for C8 at the concrete lines ["1 oz Gin", "2 oz Gin"]: the
constructed amount 3 is the sum of the amounts of the two Gin lines. -/
theorem make_ingredient_objects_aggregates_witness :
    (⟨"Gin", (3 : ℚ)⟩ : Ingredient).amount
      = amountFor [(1, "Gin"), (2, "Gin")] "Gin" :=
  (make_ingredient_objects_aggregates.1 [(1, "Gin"), (2, "Gin")]).2.1
    ⟨"Gin", 3⟩ (by norm_num [make_ingredient_objects, insert_line])

/-- C9: for every non-empty recipe and every inspiring set containing at
least one name other than the selected Ingredient's (so the candidate list
`choices` is non-empty; `i` is the drawn ingredient index and `k` the drawn
in-range index into `choices`), swap_ingredient succeeds and changes only the
selected Ingredient's name — to a name from the inspiring set different from
its current one — keeping its amount, every other position, and the
ingredient count unchanged. -/
theorem swap_ingredient_renames_selected_only (ings : Recipe)
    (all_ingredients : List String) (i k : ℕ) (hi : i < ings.length)
    (hk : k < (all_ingredients.filter
      (fun n => n ≠ (ings.getD i ⟨"", 0⟩).name)).length) :
    ∃ out : Recipe, swap_ingredient ings all_ingredients i k = some out ∧
      out.length = ings.length ∧
      (∀ j, j ≠ i → out[j]? = ings[j]?) ∧
      (out.getD i ⟨"", 0⟩).amount = (ings.getD i ⟨"", 0⟩).amount ∧
      (out.getD i ⟨"", 0⟩).name ∈ all_ingredients ∧
      (out.getD i ⟨"", 0⟩).name ≠ (ings.getD i ⟨"", 0⟩).name := by
  have hne : ings.isEmpty = false := by
    cases ings
    · simp at hi
    · rfl
  have hcne : (all_ingredients.filter
      (fun n => n ≠ (ings.getD i ⟨"", 0⟩).name)).isEmpty = false := by
    rcases hc : all_ingredients.filter (fun n => n ≠ (ings.getD i ⟨"", 0⟩).name) with
      _ | ⟨a, l⟩
    · rw [hc] at hk
      simp at hk
    · rfl
  have hmemk : (all_ingredients.filter
        (fun n => n ≠ (ings.getD i ⟨"", 0⟩).name)).getD k ""
      ∈ all_ingredients.filter (fun n => n ≠ (ings.getD i ⟨"", 0⟩).name) := by
    rw [List.getD_eq_getElem _ _ hk]
    exact List.getElem_mem hk
  have hmem := List.mem_filter.mp hmemk
  have hneq : (all_ingredients.filter
        (fun n => n ≠ (ings.getD i ⟨"", 0⟩).name)).getD k ""
      ≠ (ings.getD i ⟨"", 0⟩).name := by
    simpa using hmem.2
  refine ⟨ings.set i { ings.getD i ⟨"", 0⟩ with
      name := (all_ingredients.filter
        (fun n => n ≠ (ings.getD i ⟨"", 0⟩).name)).getD k "" },
    ?_, ?_, ?_, ?_, ?_, ?_⟩
  · simp only [swap_ingredient]
    rw [hne, hcne]
    rfl
  · exact List.length_set ings i _
  · intro j hj
    exact List.getElem?_set_ne (Ne.symm hj)
  · rw [List.getD_eq_getElem?_getD, List.getElem?_set_eq_of_lt _ hi]
    rfl
  · rw [List.getD_eq_getElem?_getD, List.getElem?_set_eq_of_lt _ hi]
    exact hmem.1
  · rw [List.getD_eq_getElem?_getD, List.getElem?_set_eq_of_lt _ hi]
    exact hneq

/-- Witness for C9: swapping the only ingredient of [2 oz Gin] with inspiring
set {Gin, Vodka} renames it (necessarily to Vodka) and keeps its amount. -/
theorem swap_ingredient_renames_selected_only_witness :
    ∃ out : Recipe, swap_ingredient [⟨"Gin", 2⟩] ["Gin", "Vodka"] 0 0 = some out ∧
      out.length = ([⟨"Gin", 2⟩] : Recipe).length ∧
      (∀ j, j ≠ 0 → out[j]? = ([⟨"Gin", 2⟩] : Recipe)[j]?) ∧
      (out.getD 0 ⟨"", 0⟩).amount = (([⟨"Gin", 2⟩] : Recipe).getD 0 ⟨"", 0⟩).amount ∧
      (out.getD 0 ⟨"", 0⟩).name ∈ ["Gin", "Vodka"] ∧
      (out.getD 0 ⟨"", 0⟩).name ≠ (([⟨"Gin", 2⟩] : Recipe).getD 0 ⟨"", 0⟩).name :=
  swap_ingredient_renames_selected_only [⟨"Gin", 2⟩] ["Gin", "Vodka"] 0 0
    (by decide) (by decide)

theorem amountFor_map_ingredient_str (sel : List Ingredient) (n : String) :
    amountFor (sel.map ingredient_str) n
      = ((sel.filter (fun ing => ing.name = n)).map
          (fun ing => round2 ing.amount)).sum := by
  induction sel with
  | nil => rfl
  | cons x tl ih =>
      by_cases h : x.name = n
      · simp [amountFor_cons, List.filter_cons, ingredient_str, h, ih]
      · simp [amountFor_cons, List.filter_cons, ingredient_str, h, ih]

theorem crossover_lines_eq (recipe1 recipe2 : Recipe) (pivot : ℕ) :
    crossover_lines recipe1 recipe2 pivot
      = (recipe1.take pivot ++ recipe2.drop pivot).map ingredient_str := by
  rw [crossover_lines, get_ingredient_strings, get_ingredient_strings,
    List.map_append, List.map_take, List.map_drop]

/-- C10: crossover builds the offspring from the parents' canonical textual
ingredient lines, in which amounts are rounded to 2 decimal places before
being re-parsed: every pre-mutation offspring Ingredient amount is the sum of
the 2-decimal-rounded amounts of the same-named parent ingredients selected
by the pivot split (so a single contributor gives exactly its rounded amount,
and duplicate names give the sum of their rounded amounts) — not the parent's
exact stored amount, as the concrete parent amount 1.006 re-parsed as 1.01
shows. -/
theorem crossover_amounts_are_rounded :
    (∀ (recipe1 recipe2 : Recipe) (pivot : ℕ),
      ∀ ing ∈ crossover recipe1 recipe2 pivot,
        ing.amount = (((recipe1.take pivot ++ recipe2.drop pivot).filter
            (fun p => p.name = ing.name)).map
            (fun p => round2 p.amount)).sum) ∧
    (crossover [⟨"Gin", 1006/1000⟩] [⟨"Gin", 1006/1000⟩] 0
        = [⟨"Gin", 101/100⟩] ∧ (101/100 : ℚ) ≠ 1006/1000) := by
  refine ⟨fun recipe1 recipe2 pivot ing hing => ?_, ?_, by norm_num⟩
  · have h := make_ingredient_objects_amount
      (crossover_lines recipe1 recipe2 pivot) ing hing
    rw [h, crossover_lines_eq, amountFor_map_ingredient_str]
  · norm_num [crossover, crossover_lines, get_ingredient_strings,
      ingredient_str, make_ingredient_objects, insert_line, round2, round_eq]

/-- Witness for C10: in the crossover of two copies of [1.006 oz Gin] at
pivot 0 the offspring Gin amount 1.01 equals the rounded parent amount. -/
theorem crossover_amounts_are_rounded_witness :
    (⟨"Gin", (101/100 : ℚ)⟩ : Ingredient).amount
      = (((([⟨"Gin", 1006/1000⟩] : Recipe).take 0
            ++ ([⟨"Gin", 1006/1000⟩] : Recipe).drop 0).filter
          (fun p => p.name = (⟨"Gin", (101/100 : ℚ)⟩ : Ingredient).name)).map
          (fun p => round2 p.amount)).sum :=
  crossover_amounts_are_rounded.1 [⟨"Gin", 1006/1000⟩] [⟨"Gin", 1006/1000⟩] 0
    ⟨"Gin", 101/100⟩ (by norm_num [crossover, crossover_lines,
      get_ingredient_strings, ingredient_str, make_ingredient_objects,
      insert_line, round2, round_eq])

end GeneticAlgo
